import Mathlib

/-!
Shallow embedding of the 53-TET keyboard's voice-lifecycle and pitch-resolution
engine.  The definitions are translated from the two component sources:
`src/src/FiftyThreeTETKeyboard.tsx` (namespace `Main`) and the unnamed variant
component `src/unnamed/part_000` (namespace `Alt`), which differ in several of
the registry and voice operations.  JavaScript floats are modelled as real
numbers for the pure pitch/curve math, and as rationals for the synth
parameters carried around by the stateful engine; JavaScript `Map`s are
modelled as association lists, JavaScript `Set`s as lists, and the Web Audio
oscillator/gain backend is modelled by per-voice records of the commands that
were issued to it (attack ramps scheduled, `setFrequency` calls, terminal
`osc.stop` calls, registered `onended` callback).  A frequency value is
represented by the data that determines it (`Pitch`): the engine only ever
feeds `freqForStepFromBase(step, baseFreqFromSemitones(transpose12))` to a
voice, so a `Pitch` records that `(step, transpose12)` pair; `Pitch.hz` maps
it to the real number it denotes.
-/

/- ------------------------------ Pure tuning math ------------------------------ -/

/-- Reference pitch D4 in Hz: `const D4_FREQ = 293.6647679`. -/
noncomputable def D4_FREQ : ℝ := 293.6647679

/-- Ratio per 53-TET step (koma): `const R = Math.pow(2, 1 / STEPS)` with `STEPS = 53`. -/
noncomputable def R : ℝ := (2 : ℝ) ^ ((1 : ℝ) / 53)

/-- Main file, lines 36-38: `freqForStepFromBase(step, baseFreq) = baseFreq * Math.pow(R, step)`.
`Math.pow` with an integer exponent and positive base is exact exponentiation,
modelled by `zpow` (negative steps give the reciprocal power, as in JS). -/
noncomputable def freqForStepFromBase (step : ℤ) (base : ℝ) : ℝ := base * R ^ step

/-- Main file, lines 33-35:
`baseFreqFromSemitones(semitonesFromD4) = D4_FREQ * Math.pow(2, semitonesFromD4 / 12)`. -/
noncomputable def baseFreqFromSemitones (semis : ℤ) : ℝ :=
  D4_FREQ * (2 : ℝ) ^ ((semis : ℝ) / 12)

namespace Alt

/-- part_000, line 433: `freqForStepFromBase = (step, base) => base * Math.pow(2, step / STEPS)`. -/
noncomputable def freqForStepFromBase (step : ℤ) (base : ℝ) : ℝ :=
  base * (2 : ℝ) ^ ((step : ℝ) / 53)

end Alt

/- ------------------------------ Decay curve ------------------------------ -/

/-- Smooth release curve, identical in both files (main lines 87-99, part_000
lines 100-112):

```
function buildSmoothDecayCurve(start, end = 1e-4, points = 256) {
  const n = Math.max(2, points | 0);
  const floor = Math.max(end, 1e-6);
  const s0 = Math.max(start || floor, floor);
  const curve = new Float32Array(n);
  for (let i = 0; i < n; i++) {
    const t = i / (n - 1);
    const smooth = t * t * (3 - 2 * t);
    curve[i] = floor + (s0 - floor) * (1 - smooth);
  }
  return curve;
}
```

`start || floor` evaluates to `floor` exactly when `start` is falsy, i.e. `0`
(NaN has no counterpart in ℝ); `points | 0` truncates to an integer, modelled
by taking the parameter as `ℤ`. -/
noncomputable def buildSmoothDecayCurve (start endv : ℝ) (points : ℤ) : List ℝ :=
  let n : ℕ := (max 2 points).toNat
  let fl : ℝ := max endv (1 / 1000000)
  let s0 : ℝ := max (if start = 0 then fl else start) fl
  (List.range n).map fun (i : ℕ) =>
    let t : ℝ := (i : ℝ) / ((n : ℝ) - 1)
    let smooth : ℝ := t * t * (3 - 2 * t)
    fl + (s0 - fl) * (1 - smooth)

/- ------------------------------ Custom step-list parsing ------------------------------ -/

/-- Accumulator pass for `s.split(/[^0-9]+/).filter(Boolean)`: maximal runs of
decimal-digit characters, in order, dropping the empty fragments the split
produces around non-digit characters. -/
def digitRunsAux : List Char → List Char → List (List Char)
  | [], acc => if acc = [] then [] else [acc.reverse]
  | c :: cs, acc =>
    if c.isDigit then digitRunsAux cs (c :: acc)
    else if acc = [] then digitRunsAux cs []
    else acc.reverse :: digitRunsAux cs []

/-- The digit tokens of the input, as produced by `s.split(/[^0-9]+/).filter(Boolean)`. -/
def digitRuns (s : List Char) : List (List Char) := digitRunsAux s []

/-- Value of `Number(t)` for an all-digit token `t`.  For tokens whose value
fits an integer this is exact; `Number.isInteger` is true of every finite
value a digit-only token can produce, and astronomically long tokens that
overflow to `Infinity` fail the JS integer check and produce an error with an
empty step list, which coincides at the claim level with the out-of-range
error this model produces for any value above 31. -/
def natOfDigits (t : List Char) : ℕ :=
  t.foldl (fun a c => 10 * a + (c.toNat - '0'.toNat)) 0

/-- Error results of `parseStepList` (the JS code formats them into message
strings; only which error fired and its datum matter here). -/
inductive ParseError where
  | outOfRange (n : ℕ)
deriving DecidableEq

/-- The token loop of `parseStepList` (both files): `for (const t of tokens)`
early-returns the first failure `if (n < 0 || n > 31)`, else accumulates the
values in order.  `n < 0` is unreachable for digit-only tokens. -/
def checkTokens : List (List Char) → ParseError ⊕ List ℕ
  | [] => Sum.inr []
  | t :: ts =>
    let n := natOfDigits t
    if 31 < n then Sum.inl (ParseError.outOfRange n)
    else
      match checkTokens ts with
      | Sum.inl e => Sum.inl e
      | Sum.inr ns => Sum.inr (n :: ns)

/-- `parseStepList` (main lines 72-84, part_000 lines 85-97):
`if (!s.trim()) return { steps: [], error: null }` then tokenise, range-check,
and return `Array.from(new Set(nums)).sort((a, b) => a - b)`.  Deduplicating
then sorting ascending yields the unique ascending enumeration of the set of
values, modelled by `List.dedup` followed by an ascending sort. -/
def parseStepList (s : List Char) : List ℕ × Option ParseError :=
  if s.all Char.isWhitespace then ([], none)
  else
    match checkTokens (digitRuns s) with
    | Sum.inl e => ([], some e)
    | Sum.inr nums => (List.insertionSort (· ≤ ·) nums.dedup, none)

/- ------------------------------ Map / list helpers ------------------------------ -/

/-- `Map.get`: first (and, on reachable states, only) binding of a key. -/
def mapGet {K V : Type} [DecidableEq K] (k : K) : List (K × V) → Option V
  | [] => none
  | (k', v) :: m => if k' = k then some v else mapGet k m

/-- `Map.set`: replace the binding in place if present, else append. -/
def mapSet {K V : Type} [DecidableEq K] (k : K) (v : V) : List (K × V) → List (K × V)
  | [] => [(k, v)]
  | (k', v') :: m => if k' = k then (k, v) :: m else (k', v') :: mapSet k v m

/-- `Map.delete`: remove the binding for a key. -/
def mapDel {K V : Type} [DecidableEq K] (k : K) : List (K × V) → List (K × V)
  | [] => []
  | (k', v') :: m => if k' = k then mapDel k m else (k', v') :: mapDel k m

/-- In-place update of one slot of the voice heap (mutating a `Voice` object
that the registry references by identity). -/
def modifyAt {α : Type} (f : α → α) : ℕ → List α → List α
  | _, [] => []
  | 0, a :: l => f a :: l
  | n + 1, a :: l => a :: modifyAt f n l

/- ------------------------------ Shared engine data ------------------------------ -/

/-- `OscillatorType` values offered by the UI. -/
inductive Waveform where
  | sine
  | triangle
  | square
  | sawtooth
deriving DecidableEq

/-- A frequency value as the engine produces it: every Hz number handed to a
voice is `freqForStepFromBase(step, baseFreqFromSemitones(transpose12))`, so
it is represented by that determining pair. -/
structure Pitch where
  step : ℤ
  transpose12 : ℤ
deriving DecidableEq

/-- The real frequency a `Pitch` denotes. -/
noncomputable def Pitch.hz (p : Pitch) : ℝ :=
  freqForStepFromBase p.step (baseFreqFromSemitones p.transpose12)

/-- Registry entry `{ voice, step }`: the voice is referenced by its heap id. -/
structure Entry where
  voice : ℕ
  step : ℤ
deriving DecidableEq

/-- Visual fade record `{ startedAt, durationMs }` (step → fade state). -/
structure Fade where
  startedAt : ℚ
  durationMs : ℚ
deriving DecidableEq

/-- `const MIN_REL = 0.03`. -/
def MIN_REL : ℚ := 3 / 100

/-- `visualReleaseMs(rel) = Math.max(90, Math.round((Math.max(MIN_REL, rel) + 0.01) * 1000))`,
identical in both files. -/
def visualReleaseMs (rel : ℚ) : ℚ :=
  max 90 ((round ((max MIN_REL rel + 1 / 100) * 1000) : ℤ) : ℚ)

/-- The React synth-parameter state read by the handlers: waveform, gain,
attack, release, and the 12-TET transposition that determines `baseFreq`. -/
structure Params where
  waveform : Waveform
  gain : ℚ
  attack : ℚ
  release : ℚ
  transpose12 : ℤ
deriving DecidableEq

/-- `freqForStepFromBase(step, baseFreq)` as the engine computes it from the
current parameters, in determining-data representation. -/
def Params.pitch (P : Params) (step : ℤ) : Pitch := ⟨step, P.transpose12⟩

/- ------------------------------ Main file engine ------------------------------ -/

namespace Main

/-- The `Voice` class of the main file (lines 121-164): one oscillator + gain
node, with the commands issued to the backend recorded.  `stopped` is the
private `_stopped` flag; `attacksScheduled` counts attack ramps
(`linearRampToValueAtTime` from 0, scheduled once in the constructor);
`termStops` counts terminal `osc.stop(...)` calls; `onEndedStep` records the
`onended` callback (always of the form `() => decGlow(step)`). -/
structure Voice where
  freq : Pitch
  wave : Waveform
  gainTarget : ℚ
  attack : ℚ
  attacksScheduled : ℕ
  setFreqCalls : ℕ
  stopped : Bool
  termStops : ℕ
  onEndedStep : Option ℤ
deriving DecidableEq

/-- `new Voice(ctx, type, frequency, gainTarget, attack)`: schedules one
attack ramp and starts the oscillator. -/
def Voice.create (w : Waveform) (f : Pitch) (g a : ℚ) : Voice :=
  { freq := f, wave := w, gainTarget := g, attack := a, attacksScheduled := 1,
    setFreqCalls := 0, stopped := false, termStops := 0, onEndedStep := none }

/-- `setFrequency(freq) { this.osc.frequency.setTargetAtTime(freq, ..., 0.01) }`. -/
def Voice.setFrequency (f : Pitch) (v : Voice) : Voice :=
  { v with freq := f, setFreqCalls := v.setFreqCalls + 1 }

/-- `setGain(target)`. -/
def Voice.setGain (g : ℚ) (v : Voice) : Voice := { v with gainTarget := g }

/-- `setWaveform(type)`. -/
def Voice.setWaveform (w : Waveform) (v : Voice) : Voice := { v with wave := w }

/-- `stop(release, onEnded)` (lines 146-163): `if (this._stopped) return;`
then schedules the decay curve, `if (onEnded) this.osc.onended = onEnded`,
and issues the terminal `this.osc.stop(rampEnd + 0.010)`. -/
def Voice.stop (cb : Option ℤ) (v : Voice) : Voice :=
  if v.stopped then v
  else
    { v with stopped := true, termStops := v.termStops + 1,
             onEndedStep := match cb with
               | some st => some st
               | none => v.onEndedStep }

/-- The liveness bookkeeping refs: `glowCounts` (step → count),
`fadeInfo` (step → fade record), plus the `nowMs()` clock. -/
structure GlowState where
  counts : List (ℤ × ℤ)
  fades : List (ℤ × Fade)
  now : ℚ
deriving DecidableEq

/-- The component's mutable refs: voice heap (ids are creation indices, one
per `new Voice`), `activePointers : Set<number>`,
`activeVoices : Map<number, {voice, step}>`, `activeKeys : Map<string, {voice, step}>`,
`latchedVoices : Map<number, Voice>`, the glow bookkeeping, and the
`activeHz`/`activeStep` readouts. -/
structure AppState where
  voices : List Voice
  activePointers : List ℕ
  activeVoices : List (ℕ × Entry)
  activeKeys : List (Char × Entry)
  latchedVoices : List (ℤ × ℕ)
  glow : GlowState
  activeHz : Option Pitch
  activeStep : Option ℤ
deriving DecidableEq

/-- The initial state: all refs empty. -/
def AppState.empty : AppState :=
  { voices := [], activePointers := [], activeVoices := [], activeKeys := [],
    latchedVoices := [], glow := { counts := [], fades := [], now := 0 },
    activeHz := none, activeStep := none }

/-- Main lines 261-265: `incGlow(step)` bumps the count and deletes any
pending fade record for the step. -/
def incGlow (step : ℤ) (s : AppState) : AppState :=
  { s with glow :=
      { s.glow with
          counts := mapSet step ((mapGet step s.glow.counts).getD 0 + 1) s.glow.counts,
          fades := mapDel step s.glow.fades } }

/-- Main lines 266-272: `maybeBeginFade(step)` records a fade only when the
count (before any decrement) is at most 1. -/
def maybeBeginFade (release : ℚ) (step : ℤ) (s : AppState) : AppState :=
  if (mapGet step s.glow.counts).getD 0 ≤ 1 then
    { s with glow :=
        { s.glow with
            fades := mapSet step ⟨s.glow.now, visualReleaseMs release⟩ s.glow.fades } }
  else s

/-- Main lines 273-277: `decGlow(step)` decrements; at or below zero it
deletes both the count and the fade record. -/
def decGlow (step : ℤ) (s : AppState) : AppState :=
  if (mapGet step s.glow.counts).getD 0 - 1 ≤ 0 then
    { s with glow :=
        { s.glow with counts := mapDel step s.glow.counts,
                      fades := mapDel step s.glow.fades } }
  else
    { s with glow :=
        { s.glow with
            counts := mapSet step ((mapGet step s.glow.counts).getD 0 - 1) s.glow.counts } }

/-- Main lines 369-375: `startForPointer(pointerId, step)` — unconditionally
constructs a `Voice`, adds the pointer, overwrites the registry entry, and
increments the glow count. -/
def startForPointer (P : Params) (pid : ℕ) (step : ℤ) (s : AppState) : AppState :=
  let f := P.pitch step
  let vid := s.voices.length
  let s1 :=
    { s with voices := s.voices ++ [Voice.create P.waveform f P.gain P.attack],
             activePointers :=
               if pid ∈ s.activePointers then s.activePointers else s.activePointers ++ [pid],
             activeVoices := mapSet pid ⟨vid, step⟩ s.activeVoices }
  let s2 := incGlow step s1
  { s2 with activeHz := some f, activeStep := some step }

/-- Main lines 376-381: `retuneForPointer(pointerId, step)` — no-op without an
entry; otherwise `if (prev !== step) { decGlow(prev); incGlow(step); }`, the
entry's step is updated in place, and the existing voice is retuned via
`setFrequency`. -/
def retuneForPointer (P : Params) (pid : ℕ) (step : ℤ) (s : AppState) : AppState :=
  match mapGet pid s.activeVoices with
  | none => s
  | some e =>
    let s1 := if e.step ≠ step then incGlow step (decGlow e.step s) else s
    let s2 :=
      { s1 with activeVoices := mapSet pid ⟨e.voice, step⟩ s1.activeVoices,
                voices := modifyAt (Voice.setFrequency (P.pitch step)) e.voice s1.voices }
    { s2 with activeHz := some (P.pitch step), activeStep := some step }

/-- Main lines 382-386: `stopForPointer(pointerId)` — no-op without an entry;
otherwise begins the visual fade, stops the voice with the deferred
`() => decGlow(step)` callback, and removes the registry entries. -/
def stopForPointer (P : Params) (pid : ℕ) (s : AppState) : AppState :=
  match mapGet pid s.activeVoices with
  | none => s
  | some e =>
    let s1 := maybeBeginFade P.release e.step s
    let s2 := { s1 with voices := modifyAt (Voice.stop (some e.step)) e.voice s1.voices }
    { s2 with activeVoices := mapDel pid s2.activeVoices,
              activePointers := s2.activePointers.filter (fun q => q ≠ pid) }

/-- Main lines 389-394: `startForKey(key, step)` —
`if (activeKeys.current.has(key)) return;` guards duplicates, then constructs
and registers a voice and increments the glow count. -/
def startForKey (P : Params) (k : Char) (step : ℤ) (s : AppState) : AppState :=
  if (mapGet k s.activeKeys).isSome then s
  else
    let f := P.pitch step
    let vid := s.voices.length
    let s1 :=
      { s with voices := s.voices ++ [Voice.create P.waveform f P.gain P.attack],
               activeKeys := mapSet k ⟨vid, step⟩ s.activeKeys }
    let s2 := incGlow step s1
    { s2 with activeHz := some f, activeStep := some step }

/-- Main lines 395-398: `stopForKey(key)`. -/
def stopForKey (P : Params) (k : Char) (s : AppState) : AppState :=
  match mapGet k s.activeKeys with
  | none => s
  | some e =>
    let s1 := maybeBeginFade P.release e.step s
    let s2 := { s1 with voices := modifyAt (Voice.stop (some e.step)) e.voice s1.voices }
    { s2 with activeKeys := mapDel k s2.activeKeys }

/-- Main lines 401-409: `toggleLatched(step)` — with an existing latched voice
it begins the fade, stops that voice, deletes the latch entry and clears the
readout when nothing is left; otherwise it constructs a fresh voice,
registers it under the step, and increments the glow count. -/
def toggleLatched (P : Params) (step : ℤ) (s : AppState) : AppState :=
  match mapGet step s.latchedVoices with
  | some vid =>
    let s1 := maybeBeginFade P.release step s
    let s2 := { s1 with voices := modifyAt (Voice.stop (some step)) vid s1.voices }
    let s3 := { s2 with latchedVoices := mapDel step s2.latchedVoices }
    if s3.activeVoices.isEmpty && s3.latchedVoices.isEmpty then
      { s3 with activeHz := none, activeStep := none }
    else s3
  | none =>
    let f := P.pitch step
    let vid := s.voices.length
    let s1 :=
      { s with voices := s.voices ++ [Voice.create P.waveform f P.gain P.attack],
               latchedVoices := mapSet step vid s.latchedVoices }
    let s2 := incGlow step s1
    { s2 with activeHz := some f, activeStep := some step }

/-- Main lines 361-366: the `useEffect` on `[transpose12, baseFreq]` iterates
`activeVoices.current` only, retuning each held pointer voice in place and
updating the readout. -/
def retuneHeldOnBaseChange (P : Params) (s : AppState) : AppState :=
  s.activeVoices.foldl
    (fun acc pe =>
      { acc with
          voices := modifyAt (Voice.setFrequency (P.pitch pe.2.step)) pe.2.voice acc.voices,
          activeHz := some (P.pitch pe.2.step), activeStep := some pe.2.step })
    s

/-- Specification-side view of the base-change effect on the voice heap: the
same per-entry `setFrequency` updates, folded over an arbitrary entry list. -/
def setFreqFold (P : Params) (l : List (ℕ × Entry)) (vs : List Voice) : List Voice :=
  l.foldl (fun vs pe => modifyAt (Voice.setFrequency (P.pitch pe.2.step)) pe.2.voice vs) vs

/-- The steps at which the entries of `l` reference heap slot `i`, in order. -/
def retuneSteps (i : ℕ) (l : List (ℕ × Entry)) : List ℤ :=
  (l.filter fun pe => pe.2.voice == i).map fun pe => pe.2.step

/-- Apply a sequence of `setFrequency` calls to one voice. -/
def setFreqSeq (P : Params) (steps : List ℤ) (v : Voice) : Voice :=
  steps.foldl (fun v st => Voice.setFrequency (P.pitch st) v) v

/-- The liveness operations named by the spec, as a little op language so that
invariants can be stated over arbitrary operation sequences. -/
inductive GlowOp where
  | inc (step : ℤ)
  | beginFade (step : ℤ)
  | dec (step : ℤ)
deriving DecidableEq

/-- Apply one liveness operation. -/
def applyGlowOp (P : Params) (s : AppState) : GlowOp → AppState
  | GlowOp.inc step => incGlow step s
  | GlowOp.beginFade step => maybeBeginFade P.release step s
  | GlowOp.dec step => decGlow step s

/-- Apply a sequence of liveness operations. -/
def applyGlowOps (P : Params) (ops : List GlowOp) (s : AppState) : AppState :=
  ops.foldl (applyGlowOp P) s

/-- Every stored glow count is positive (equivalently: no step's count, read
as `glowCounts.get(step) || 0`, is ever negative). -/
def goodCounts (s : AppState) : Prop := ∀ kv ∈ s.glow.counts, 0 < kv.2

instance (s : AppState) : Decidable (goodCounts s) := by
  unfold goodCounts; infer_instance

end Main

/- ------------------------------ part_000 engine (where it differs) ------------------------------ -/

namespace Alt

/-- The `Voice` class of part_000 (lines 115-162): no `_stopped` flag; the
release curve is rebuilt and cached at each gain change (`curveAnchor` is the
gain it was built from). -/
structure Voice where
  freq : Pitch
  wave : Waveform
  gainTarget : ℚ
  curveAnchor : ℚ
  attack : ℚ
  setFreqCalls : ℕ
  termStops : ℕ
  onEndedStep : Option ℤ
deriving DecidableEq

/-- part_000 constructor: schedules the attack and caches
`releaseCurve = buildSmoothDecayCurve(gain)`. -/
def Voice.create (w : Waveform) (f : Pitch) (g a : ℚ) : Voice :=
  { freq := f, wave := w, gainTarget := g, curveAnchor := g, attack := a,
    setFreqCalls := 0, termStops := 0, onEndedStep := none }

/-- part_000 `setFrequency(f) { this.osc.frequency.value = f }`. -/
def Voice.setFrequency (f : Pitch) (v : Voice) : Voice :=
  { v with freq := f, setFreqCalls := v.setFreqCalls + 1 }

/-- part_000 `stop(release, onEnded)` (lines 152-161): UNGUARDED — every call
schedules the decay curve, issues `this.osc.stop(now + rel + 0.005)` and
reassigns `this.osc.onended`. -/
def Voice.stop (cb : Option ℤ) (v : Voice) : Voice :=
  { v with termStops := v.termStops + 1, onEndedStep := cb }

/-- part_000 component refs (lines 436-448): `activePointers` is a
`Map<number, number>` (pointer → step) here. -/
structure AppState where
  voices : List Voice
  activePointers : List (ℕ × ℤ)
  activeVoices : List (ℕ × Entry)
  activeKeys : List (Char × Entry)
  latchedVoices : List (ℤ × ℕ)
  glowCounts : List (ℤ × ℤ)
  fadeInfo : List (ℤ × Fade)
  now : ℚ
  activeHz : Option Pitch
  activeStep : Option ℤ
deriving DecidableEq

/-- All refs empty. -/
def AppState.empty : AppState :=
  { voices := [], activePointers := [], activeVoices := [], activeKeys := [],
    latchedVoices := [], glowCounts := [], fadeInfo := [], now := 0,
    activeHz := none, activeStep := none }

/-- part_000 line 444: `incGlow` bumps the count only — it does NOT clear a
pending fade record. -/
def incGlow (step : ℤ) (s : AppState) : AppState :=
  { s with glowCounts := mapSet step ((mapGet step s.glowCounts).getD 0 + 1) s.glowCounts }

/-- part_000 line 445: `decGlow` deletes at or below zero, else stores the
decremented count; `fadeInfo` is untouched (a `setTimeout` clears it). -/
def decGlow (step : ℤ) (s : AppState) : AppState :=
  if (mapGet step s.glowCounts).getD 0 - 1 ≤ 0 then
    { s with glowCounts := mapDel step s.glowCounts }
  else
    { s with glowCounts := mapSet step ((mapGet step s.glowCounts).getD 0 - 1) s.glowCounts }

/-- part_000 line 446: `maybeBeginFade` unconditionally records the fade
(its later removal is timer-driven and not part of these transitions). -/
def maybeBeginFade (release : ℚ) (step : ℤ) (s : AppState) : AppState :=
  { s with fadeInfo := mapSet step ⟨s.now, visualReleaseMs release⟩ s.fadeInfo }

/-- part_000 lines 469-476: `startVoice(step)` constructs the voice,
increments the glow count and updates the readout; the caller registers it. -/
def startVoice (P : Params) (step : ℤ) (s : AppState) : AppState :=
  let f := P.pitch step
  let s1 := { s with voices := s.voices ++ [Voice.create P.waveform f P.gain P.attack] }
  let s2 := incGlow step s1
  { s2 with activeHz := some f, activeStep := some step }

/-- part_000 lines 477-480: `startForKey(key, step)` — NO duplicate guard;
it always constructs a voice and overwrites the entry. -/
def startForKey (P : Params) (k : Char) (step : ℤ) (s : AppState) : AppState :=
  let vid := s.voices.length
  let s1 := startVoice P step s
  { s1 with activeKeys := mapSet k ⟨vid, step⟩ s1.activeKeys }

/-- part_000 lines 490-494: `startForPointer(pointerId, step)`. -/
def startForPointer (P : Params) (pid : ℕ) (step : ℤ) (s : AppState) : AppState :=
  let vid := s.voices.length
  let s1 := startVoice P step s
  { s1 with activePointers := mapSet pid step s1.activePointers,
            activeVoices := mapSet pid ⟨vid, step⟩ s1.activeVoices }

/-- part_000 lines 495-504: `retuneForPointer(pointerId, step)` — retunes the
existing voice and increments the NEW step's glow count, but never decrements
the old step's. -/
def retuneForPointer (P : Params) (pid : ℕ) (step : ℤ) (s : AppState) : AppState :=
  match mapGet pid s.activeVoices with
  | none => s
  | some e =>
    let s1 := { s with voices := modifyAt (Voice.setFrequency (P.pitch step)) e.voice s.voices }
    let s2 := incGlow step s1
    { s2 with activeHz := some (P.pitch step), activeStep := some step,
              activeVoices := mapSet pid ⟨e.voice, step⟩ s2.activeVoices }

/-- part_000 liveness invariant: every stored glow count is positive
(equivalently: no step's count, read as `get(step) || 0`, is ever
negative). -/
def goodCounts (s : AppState) : Prop := ∀ kv ∈ s.glowCounts, 0 < kv.2

instance (s : AppState) : Decidable (goodCounts s) := by
  unfold goodCounts; infer_instance

/-- Apply one liveness operation, part_000 variant (same op alphabet as the
main file's). -/
def applyGlowOp (P : Params) (s : AppState) : Main.GlowOp → AppState
  | Main.GlowOp.inc step => incGlow step s
  | Main.GlowOp.beginFade step => maybeBeginFade P.release step s
  | Main.GlowOp.dec step => decGlow step s

/-- Apply a sequence of liveness operations, part_000 variant. -/
def applyGlowOps (P : Params) (ops : List Main.GlowOp) (s : AppState) : AppState :=
  ops.foldl (applyGlowOp P) s

end Alt

/- ------------------------------ Sample fixtures for witnesses ------------------------------ -/

/-- Concrete synth parameters matching the main file's defaults
(sine, gain 0.15, attack 0.01, release 0.45, no transposition). -/
def P0 : Params := ⟨Waveform.sine, 15 / 100, 1 / 100, 45 / 100, 0⟩

/-- `P0` after transposing the base up 7 semitones. -/
def P1 : Params := ⟨Waveform.sine, 15 / 100, 1 / 100, 45 / 100, 7⟩

/-- State with one pointer voice: pointer 1 holding step 10. -/
def sPtr1 : Main.AppState := Main.startForPointer P0 1 10 Main.AppState.empty

/-- State with one key voice: key 'a' holding step 5. -/
def sKeyA : Main.AppState := Main.startForKey P0 'a' 5 Main.AppState.empty

/-- State with one latched voice at step 5. -/
def sLatch5 : Main.AppState := Main.toggleLatched P0 5 Main.AppState.empty

/-- part_000 state with pointer 1 holding step 10. -/
def altPtr1 : Alt.AppState := Alt.startForPointer P0 1 10 Alt.AppState.empty

/- ------------------------------ Helper lemmas: maps and heap slots ------------------------------ -/

theorem mapGet_set_self {K V : Type} [DecidableEq K] (k : K) (v : V) (m : List (K × V)) :
    mapGet k (mapSet k v m) = some v := by
  induction m with
  | nil => simp [mapGet, mapSet]
  | cons kv m ih =>
    obtain ⟨k', v'⟩ := kv
    by_cases h : k' = k <;> simp [mapGet, mapSet, h, ih]

theorem mapGet_set_ne {K V : Type} [DecidableEq K] {q k : K} (h : q ≠ k) (v : V)
    (m : List (K × V)) : mapGet q (mapSet k v m) = mapGet q m := by
  have hk : ¬(k = q) := fun hh => h hh.symm
  induction m with
  | nil => simp [mapGet, mapSet, hk]
  | cons kv m ih =>
    obtain ⟨k', v'⟩ := kv
    by_cases hkk : k' = k
    · subst hkk
      simp [mapGet, mapSet, hk]
    · simp [mapGet, mapSet, hkk, ih]

theorem mapGet_del_self {K V : Type} [DecidableEq K] (k : K) (m : List (K × V)) :
    mapGet k (mapDel k m) = none := by
  induction m with
  | nil => simp [mapGet, mapDel]
  | cons kv m ih =>
    obtain ⟨k', v'⟩ := kv
    by_cases h : k' = k <;> simp [mapGet, mapDel, h, ih]

theorem mapGet_del_ne {K V : Type} [DecidableEq K] {q k : K} (h : q ≠ k)
    (m : List (K × V)) : mapGet q (mapDel k m) = mapGet q m := by
  have hk : ¬(k = q) := fun hh => h hh.symm
  induction m with
  | nil => simp [mapDel]
  | cons kv m ih =>
    obtain ⟨k', v'⟩ := kv
    by_cases hkk : k' = k
    · subst hkk
      simp [mapGet, mapDel, hk, ih]
    · simp [mapGet, mapDel, hkk, ih]

theorem mem_mapSet {K V : Type} [DecidableEq K] {kv : K × V} {k : K} {v : V}
    {m : List (K × V)} (h : kv ∈ mapSet k v m) : kv = (k, v) ∨ kv ∈ m := by
  induction m with
  | nil =>
    simp only [mapSet, List.mem_singleton] at h
    exact Or.inl h
  | cons kv' m ih =>
    obtain ⟨k', v'⟩ := kv'
    by_cases hk : k' = k
    · simp only [mapSet] at h
      rw [if_pos hk] at h
      rcases List.mem_cons.1 h with h1 | h1
      · exact Or.inl h1
      · exact Or.inr (List.mem_cons_of_mem _ h1)
    · simp only [mapSet] at h
      rw [if_neg hk] at h
      rcases List.mem_cons.1 h with h1 | h1
      · exact Or.inr (h1 ▸ List.mem_cons_self _ _)
      · rcases ih h1 with h2 | h2
        · exact Or.inl h2
        · exact Or.inr (List.mem_cons_of_mem _ h2)

theorem mem_mapDel {K V : Type} [DecidableEq K] {kv : K × V} {k : K}
    {m : List (K × V)} (h : kv ∈ mapDel k m) : kv ∈ m := by
  induction m with
  | nil => simp [mapDel] at h
  | cons kv' m ih =>
    obtain ⟨k', v'⟩ := kv'
    by_cases hk : k' = k
    · simp only [mapDel] at h
      rw [if_pos hk] at h
      exact List.mem_cons_of_mem _ (ih h)
    · simp only [mapDel] at h
      rw [if_neg hk] at h
      rcases List.mem_cons.1 h with h1 | h1
      · exact h1 ▸ List.mem_cons_self _ _
      · exact List.mem_cons_of_mem _ (ih h1)

theorem mapGet_mem {K V : Type} [DecidableEq K] {k : K} {v : V} {m : List (K × V)}
    (h : mapGet k m = some v) : (k, v) ∈ m := by
  induction m with
  | nil => simp [mapGet] at h
  | cons kv m ih =>
    obtain ⟨k', v'⟩ := kv
    by_cases hk : k' = k
    · subst hk
      simp [mapGet] at h
      simp [h]
    · simp only [mapGet] at h
      rw [if_neg hk] at h
      exact List.mem_cons_of_mem _ (ih h)

theorem length_modifyAt {α : Type} (f : α → α) (i : ℕ) (l : List α) :
    (modifyAt f i l).length = l.length := by
  induction l generalizing i with
  | nil => cases i <;> simp [modifyAt]
  | cons a l ih => cases i <;> simp [modifyAt, ih]

theorem getElem?_modifyAt {α : Type} (f : α → α) (i j : ℕ) (l : List α) :
    (modifyAt f i l)[j]? = if j = i then (l[j]?).map f else l[j]? := by
  induction l generalizing i j with
  | nil => cases i <;> simp [modifyAt]
  | cons a l ih =>
    cases i with
    | zero =>
      cases j with
      | zero => simp [modifyAt]
      | succ j => simp [modifyAt]
    | succ i =>
      cases j with
      | zero => simp [modifyAt]
      | succ j => simpa [modifyAt, Nat.succ_inj] using ih i j

/- ------------------------------ Helper lemmas: pitch math ------------------------------ -/

theorem freq_rpow (s : ℤ) (b : ℝ) :
    freqForStepFromBase s b = b * (2 : ℝ) ^ ((s : ℝ) / 53) := by
  unfold freqForStepFromBase R
  congr 1
  rw [← Real.rpow_intCast ((2 : ℝ) ^ ((1 : ℝ) / 53)) s,
      ← Real.rpow_mul (by norm_num : (0 : ℝ) ≤ 2)]
  congr 1
  ring

theorem freq_octave (s : ℤ) (b : ℝ) :
    freqForStepFromBase s b = freqForStepFromBase (s - 53) b * 2 := by
  rw [freq_rpow, freq_rpow]
  have hcast : ((s : ℝ)) / 53 = ((s - 53 : ℤ) : ℝ) / 53 + 1 := by
    push_cast
    ring
  rw [hcast, Real.rpow_add (by norm_num : (0 : ℝ) < 2), Real.rpow_one]
  ring

theorem rpow3153_pow : ((2 : ℝ) ^ ((31 : ℝ) / 53)) ^ (53 : ℕ) = 2 ^ (31 : ℕ) := by
  rw [← Real.rpow_natCast ((2 : ℝ) ^ ((31 : ℝ) / 53)) 53,
      ← Real.rpow_mul (by norm_num : (0 : ℝ) ≤ 2)]
  rw [show (31 : ℝ) / 53 * ((53 : ℕ) : ℝ) = ((31 : ℕ) : ℝ) by push_cast; ring,
      Real.rpow_natCast]

theorem rpow3153_le : (2 : ℝ) ^ ((31 : ℝ) / 53) ≤ 3 / 2 := by
  apply le_of_pow_le_pow_left₀ (by norm_num : (53 : ℕ) ≠ 0) (by norm_num : (0 : ℝ) ≤ 3 / 2)
  rw [rpow3153_pow]
  norm_num

theorem le_rpow3153 : (1497 / 1000 : ℝ) ≤ (2 : ℝ) ^ ((31 : ℝ) / 53) := by
  apply le_of_pow_le_pow_left₀ (by norm_num : (53 : ℕ) ≠ 0)
    (Real.rpow_nonneg (by norm_num) _)
  rw [rpow3153_pow]
  norm_num

/- ------------------------------ C1 ------------------------------ -/

/-- C1: pitch resolution is the exact exponential law — for every integer step
`s` (negative allowed) and every base `b`, `freqForStepFromBase(s, b)` equals
`b * 2 ^ (s / 53)` (which is precisely the part_000 formulation), and
consequently `frequency(s, base) = frequency(s - 53, base) * 2`. -/
theorem claim_C1 :
    (∀ (s : ℤ) (b : ℝ), freqForStepFromBase s b = b * (2 : ℝ) ^ ((s : ℝ) / 53)) ∧
    (∀ (s : ℤ) (b : ℝ), freqForStepFromBase s b = Alt.freqForStepFromBase s b) ∧
    (∀ (s : ℤ) (b : ℝ), freqForStepFromBase s b = freqForStepFromBase (s - 53) b * 2) :=
  ⟨freq_rpow, fun s b => (freq_rpow s b).trans rfl, freq_octave⟩

/- ------------------------------ C9 ------------------------------ -/

/-- C9: with base `D4_FREQ = 293.6647679` Hz, step 0 resolves to the base
itself and step 31 resolves to `293.6647679 * 2 ^ (31/53)`, which lies within
0.5 Hz of 440 Hz. -/
theorem claim_C9 :
    freqForStepFromBase 0 D4_FREQ = D4_FREQ ∧
    freqForStepFromBase 31 D4_FREQ = D4_FREQ * (2 : ℝ) ^ ((31 : ℝ) / 53) ∧
    |freqForStepFromBase 31 D4_FREQ - 440| ≤ 1 / 2 := by
  have h31 : freqForStepFromBase 31 D4_FREQ = D4_FREQ * (2 : ℝ) ^ ((31 : ℝ) / 53) := by
    rw [freq_rpow]
    norm_num
  refine ⟨by unfold freqForStepFromBase; simp, h31, ?_⟩
  have hpos : (0 : ℝ) ≤ D4_FREQ := by unfold D4_FREQ; norm_num
  have h1 : D4_FREQ * (1497 / 1000 : ℝ) ≤ D4_FREQ * ((2 : ℝ) ^ ((31 : ℝ) / 53)) :=
    mul_le_mul_of_nonneg_left le_rpow3153 hpos
  have h2 : D4_FREQ * ((2 : ℝ) ^ ((31 : ℝ) / 53)) ≤ D4_FREQ * (3 / 2 : ℝ) :=
    mul_le_mul_of_nonneg_left rpow3153_le hpos
  have h3 : (439.5 : ℝ) ≤ D4_FREQ * (1497 / 1000 : ℝ) := by unfold D4_FREQ; norm_num
  have h4 : D4_FREQ * (3 / 2 : ℝ) ≤ (440.5 : ℝ) := by unfold D4_FREQ; norm_num
  rw [h31, abs_le]
  constructor <;> linarith

/- ------------------------------ C2 ------------------------------ -/

/-- C2 (amended): duplicate note-on is a no-op for key sources in the main
file — `startForKey` returns with the state completely unchanged (no Voice
constructed, registry entry untouched, liveness count untouched) when the key
already has a registered voice.  For pointer sources the guard does not
exist: see the counterexample. -/
theorem claim_C2 :
    ∀ (P : Params) (k : Char) (step : ℤ) (s : Main.AppState),
      (mapGet k s.activeKeys).isSome = true → Main.startForKey P k step s = s := by
  intro P k step s h
  unfold Main.startForKey
  simp [h]

/-- Witness: pressing key 'a' at step 5 registers it, and a second
`startForKey` for 'a' leaves the state exactly as it was. -/
theorem claim_C2_witness :
    (mapGet 'a' sKeyA.activeKeys).isSome = true ∧
      Main.startForKey P0 'a' 9 sKeyA = sKeyA :=
  ⟨by decide, claim_C2 P0 'a' 9 sKeyA (by decide)⟩

/-- Counterexample to C2 as stated: for a POINTER source that already has a
registered voice (pointer 7 holding step 5), a second `startForPointer`
constructs a second Voice (heap size 2, not 1), bumps the step's liveness
count to 2, and overwrites the registry entry with the new voice id. -/
theorem claim_C2_counterexample :
    (Main.startForPointer P0 7 5
        (Main.startForPointer P0 7 5 Main.AppState.empty)).voices.length ≠ 1 ∧
    mapGet 5 (Main.startForPointer P0 7 5
        (Main.startForPointer P0 7 5 Main.AppState.empty)).glow.counts ≠ some 1 ∧
    mapGet 7 (Main.startForPointer P0 7 5
          (Main.startForPointer P0 7 5 Main.AppState.empty)).activeVoices ≠
      mapGet 7 (Main.startForPointer P0 7 5 Main.AppState.empty).activeVoices := by
  refine ⟨by decide, by decide, by decide⟩

/- ------------------------------ C4 ------------------------------ -/

/-- C4 (amended): in the main file `Voice.stop` is idempotent — a second
`stop` on an already-stopping voice returns immediately, so the voice state
after the second call is literally the state after the first (hence no second
terminal `osc.stop` and no re-registration of the `onended` callback), and a
single `stop` issues exactly one terminal stop when the voice was running and
none when it was already stopped.  The part_000 variant lacks the guard: see
the counterexample. -/
theorem claim_C4 :
    (∀ (v : Main.Voice) (cb cb' : Option ℤ),
        Main.Voice.stop cb' (Main.Voice.stop cb v) = Main.Voice.stop cb v) ∧
    (∀ (v : Main.Voice) (cb : Option ℤ),
        (Main.Voice.stop cb v).termStops =
          if v.stopped then v.termStops else v.termStops + 1) := by
  constructor
  · intro v cb cb'
    unfold Main.Voice.stop
    by_cases h : v.stopped <;> simp [h]
  · intro v cb
    unfold Main.Voice.stop
    by_cases h : v.stopped <;> simp [h]

/-- Counterexample to C4 as stated: the part_000 `Voice.stop` has no
`_stopped` guard, so a second call on a freshly stopped voice issues a second
terminal `osc.stop` (the command count differs from the single-stop state). -/
theorem claim_C4_counterexample :
    (Alt.Voice.stop (some 3) (Alt.Voice.stop (some 3)
        (Alt.Voice.create Waveform.sine ⟨0, 0⟩ 1 1))).termStops ≠
      (Alt.Voice.stop (some 3) (Alt.Voice.create Waveform.sine ⟨0, 0⟩ 1 1)).termStops := by
  decide

/- ------------------------------ C8 helpers ------------------------------ -/

theorem s0_eq_max {start fl : ℝ} (hfl : 0 < fl) :
    max (if start = 0 then fl else start) fl = max start fl := by
  by_cases h : start = 0
  · rw [if_pos h, h, max_self, max_eq_right hfl.le]
  · rw [if_neg h]

theorem smoothstep_mono {a b : ℝ} (ha : 0 ≤ a) (hab : a ≤ b) (hb : b ≤ 1) :
    a * a * (3 - 2 * a) ≤ b * b * (3 - 2 * b) := by
  nlinarith [mul_nonneg ha (sub_nonneg.2 hab), mul_nonneg (sub_nonneg.2 hab) (sub_nonneg.2 hb),
             sq_nonneg (a + b - 1), mul_nonneg (mul_nonneg ha ha) (sub_nonneg.2 hab)]

theorem smoothstep_le_one {t : ℝ} (h0 : 0 ≤ t) (_h1 : t ≤ 1) : t * t * (3 - 2 * t) ≤ 1 := by
  nlinarith [sq_nonneg (1 - t), h0]

theorem smoothstep_nonneg {t : ℝ} (_h0 : 0 ≤ t) (h1 : t ≤ 1) : 0 ≤ t * t * (3 - 2 * t) := by
  nlinarith [mul_nonneg _h0 _h0, h1]

theorem buildCurve_two_le (points : ℤ) : 2 ≤ (max 2 points).toNat := by
  have h : (2 : ℤ) ≤ max 2 points := le_max_left _ _
  omega

theorem buildCurve_length (start endv : ℝ) (points : ℤ) :
    (buildSmoothDecayCurve start endv points).length = (max 2 points).toNat := by
  unfold buildSmoothDecayCurve
  rw [List.length_map, List.length_range]

theorem buildCurve_getElem (start endv : ℝ) (points : ℤ) (i : ℕ)
    (hi : i < (max 2 points).toNat) :
    (buildSmoothDecayCurve start endv points)[i]? =
      some (max endv (1 / 1000000) +
        (max start (max endv (1 / 1000000)) - max endv (1 / 1000000)) *
          (1 - (i : ℝ) / (((max 2 points).toNat : ℝ) - 1) *
            ((i : ℝ) / (((max 2 points).toNat : ℝ) - 1)) *
            (3 - 2 * ((i : ℝ) / (((max 2 points).toNat : ℝ) - 1))))) := by
  have hfl : (0 : ℝ) < max endv (1 / 1000000) := lt_max_of_lt_right (by norm_num)
  unfold buildSmoothDecayCurve
  rw [List.getElem?_map, List.getElem?_range hi, Option.map_some']
  dsimp only
  rw [s0_eq_max hfl]

theorem buildCurve_head (start endv : ℝ) (points : ℤ) :
    (buildSmoothDecayCurve start endv points).head? =
      some (max start (max endv (1 / 1000000))) := by
  have h0 : 0 < (max 2 points).toNat := by have := buildCurve_two_le points; omega
  have h := buildCurve_getElem start endv points 0 h0
  rw [List.head?_eq_getElem?, h]
  norm_num

theorem buildCurve_getLast (start endv : ℝ) (points : ℤ) :
    (buildSmoothDecayCurve start endv points).getLast? =
      some (max endv (1 / 1000000)) := by
  have hn2 : 2 ≤ (max 2 points).toNat := buildCurve_two_le points
  have hlt : (max 2 points).toNat - 1 < (max 2 points).toNat := by omega
  have h := buildCurve_getElem start endv points ((max 2 points).toNat - 1) hlt
  rw [List.getLast?_eq_getElem?, buildCurve_length, h]
  have hcast : (((max 2 points).toNat - 1 : ℕ) : ℝ) = ((max 2 points).toNat : ℝ) - 1 := by
    have : 1 ≤ (max 2 points).toNat := by omega
    push_cast [this]
    ring
  have hne : ((max 2 points).toNat : ℝ) - 1 ≠ 0 := by
    have : (2 : ℝ) ≤ ((max 2 points).toNat : ℝ) := by exact_mod_cast hn2
    intro hc
    linarith
  rw [hcast, div_self hne]
  norm_num

theorem buildCurve_pairwise (start endv : ℝ) (points : ℤ) :
    (buildSmoothDecayCurve start endv points).Pairwise (· ≥ ·) := by
  unfold buildSmoothDecayCurve
  rw [List.pairwise_map]
  refine (List.pairwise_lt_range _).imp_of_mem ?_
  intro i j hi hj hij
  rw [List.mem_range] at hi hj
  have hn2 : 2 ≤ (max 2 points).toNat := buildCurve_two_le points
  have hnr : (2 : ℝ) ≤ ((max 2 points).toNat : ℝ) := by exact_mod_cast hn2
  have hd : (0 : ℝ) < ((max 2 points).toNat : ℝ) - 1 := by linarith
  have hti : (0 : ℝ) ≤ (i : ℝ) / (((max 2 points).toNat : ℝ) - 1) :=
    div_nonneg (Nat.cast_nonneg i) hd.le
  have htij : (i : ℝ) / (((max 2 points).toNat : ℝ) - 1) ≤
      (j : ℝ) / (((max 2 points).toNat : ℝ) - 1) :=
    (div_le_div_iff_of_pos_right hd).mpr (by exact_mod_cast hij.le)
  have htj1 : (j : ℝ) / (((max 2 points).toNat : ℝ) - 1) ≤ 1 := by
    rw [div_le_one hd]
    have hj1 : (j : ℝ) + 1 ≤ ((max 2 points).toNat : ℝ) := by exact_mod_cast hj
    linarith
  have hsm := smoothstep_mono hti htij htj1
  have hs0fl : max endv (1 / 1000000) ≤ max (if start = 0 then max endv (1 / 1000000) else start)
      (max endv (1 / 1000000)) := le_max_right _ _
  have hmul := mul_le_mul_of_nonneg_left hsm (sub_nonneg.2 hs0fl)
  simp only [ge_iff_le]
  nlinarith [hmul]

theorem buildCurve_pos (start endv : ℝ) (points : ℤ) :
    ∀ x ∈ buildSmoothDecayCurve start endv points, 0 < x := by
  intro x hx
  unfold buildSmoothDecayCurve at hx
  simp only [List.mem_map, List.mem_range] at hx
  obtain ⟨i, hi, rfl⟩ := hx
  have hn2 : 2 ≤ (max 2 points).toNat := buildCurve_two_le points
  have hnr : (2 : ℝ) ≤ ((max 2 points).toNat : ℝ) := by exact_mod_cast hn2
  have hd : (0 : ℝ) < ((max 2 points).toNat : ℝ) - 1 := by linarith
  have hti : (0 : ℝ) ≤ (i : ℝ) / (((max 2 points).toNat : ℝ) - 1) :=
    div_nonneg (Nat.cast_nonneg i) hd.le
  have hti1 : (i : ℝ) / (((max 2 points).toNat : ℝ) - 1) ≤ 1 := by
    rw [div_le_one hd]
    have hi1 : (i : ℝ) + 1 ≤ ((max 2 points).toNat : ℝ) := by exact_mod_cast hi
    linarith
  have hsm1 := smoothstep_le_one hti hti1
  have hfl : (0 : ℝ) < max endv (1 / 1000000) := lt_max_of_lt_right (by norm_num)
  have hs0fl : max endv (1 / 1000000) ≤ max (if start = 0 then max endv (1 / 1000000) else start)
      (max endv (1 / 1000000)) := le_max_right _ _
  nlinarith [mul_nonneg (sub_nonneg.2 hs0fl) (sub_nonneg.2 hsm1)]

/- ------------------------------ C8 ------------------------------ -/

/-- C8 (amended): for every start, floor parameter and resolution parameter,
the curve has length `max 2 resolutionPoints`, is monotonically
non-increasing, begins at `start` clamped to at least the EFFECTIVE floor
`max(floor, 1e-6)` (the code clamps the floor parameter itself up to 1e-6),
ends at that effective floor, and every element is strictly positive.  As
stated the claim fails for floor parameters below 1e-6, where the curve ends
at 1e-6 rather than at the given floor: see the counterexample. -/
theorem claim_C8 :
    ∀ (start endv : ℝ) (points : ℤ),
      (buildSmoothDecayCurve start endv points).length = (max 2 points).toNat ∧
      (buildSmoothDecayCurve start endv points).head? =
        some (max start (max endv (1 / 1000000))) ∧
      (buildSmoothDecayCurve start endv points).getLast? =
        some (max endv (1 / 1000000)) ∧
      (buildSmoothDecayCurve start endv points).Pairwise (· ≥ ·) ∧
      (∀ x ∈ buildSmoothDecayCurve start endv points, 0 < x) :=
  fun start endv points =>
    ⟨buildCurve_length start endv points, buildCurve_head start endv points,
     buildCurve_getLast start endv points, buildCurve_pairwise start endv points,
     buildCurve_pos start endv points⟩

/-- Counterexample to C8 as stated: with floor parameter 0 (start 1/2,
256 points) the curve does NOT end at the given floor — the code clamps the
floor to 1e-6 first. -/
theorem claim_C8_counterexample :
    (buildSmoothDecayCurve (1 / 2) 0 256).getLast? ≠ some 0 := by
  rw [buildCurve_getLast]
  intro h
  have h2 : max (0 : ℝ) (1 / 1000000) = 0 := Option.some.inj h
  rw [max_eq_right (by norm_num : (0 : ℝ) ≤ 1 / 1000000)] at h2
  norm_num at h2

/- ------------------------------ C10 helpers ------------------------------ -/

theorem digitRunsAux_nil_of_no_digit :
    ∀ s : List Char, (∀ c ∈ s, c.isDigit = false) → digitRunsAux s [] = [] := by
  intro s
  induction s with
  | nil => intro _; simp [digitRunsAux]
  | cons c cs ih =>
    intro h
    have hc : c.isDigit = false := h c (List.mem_cons_self _ _)
    simp only [digitRunsAux, hc]
    simp only [Bool.false_eq_true, if_false, if_pos rfl]
    exact ih fun c' hc' => h c' (List.mem_cons_of_mem _ hc')

theorem checkTokens_le31 :
    ∀ {ts : List (List Char)} {ns : List ℕ},
      checkTokens ts = Sum.inr ns → ∀ n ∈ ns, n ≤ 31 := by
  intro ts
  induction ts with
  | nil =>
    intro ns h
    have h' := Sum.inr.inj h
    subst h'
    intro n hn
    simp at hn
  | cons t ts ih =>
    intro ns h
    simp only [checkTokens] at h
    by_cases h31 : 31 < natOfDigits t
    · rw [if_pos h31] at h
      exact absurd h (by simp)
    · rw [if_neg h31] at h
      cases hck : checkTokens ts with
      | inl e =>
        rw [hck] at h
        exact absurd h (by simp)
      | inr ns' =>
        rw [hck] at h
        have h' := Sum.inr.inj h
        subst h'
        intro n hn
        rcases List.mem_cons.1 hn with h1 | h1
        · subst h1
          omega
        · exact ih hck n h1

theorem parse_error_steps_nil (s : List Char) :
    ((parseStepList s).2).isSome = true → (parseStepList s).1 = [] := by
  unfold parseStepList
  by_cases hw : s.all Char.isWhitespace
  · rw [if_pos hw]
    simp
  · rw [if_neg hw]
    cases hck : checkTokens (digitRuns s) with
    | inl e => simp
    | inr ns => simp

theorem parse_ok_props (s : List Char) :
    (parseStepList s).1.Pairwise (· < ·) ∧ ∀ x ∈ (parseStepList s).1, x ≤ 31 := by
  unfold parseStepList
  by_cases hw : s.all Char.isWhitespace
  · rw [if_pos hw]
    constructor
    · exact List.Pairwise.nil
    · intro x hx
      simp at hx
  · rw [if_neg hw]
    cases hck : checkTokens (digitRuns s) with
    | inl e =>
      constructor
      · exact List.Pairwise.nil
      · intro x hx
        simp at hx
    | inr ns =>
      have hsorted : List.Sorted (· ≤ ·) (List.insertionSort (· ≤ ·) ns.dedup) :=
        List.sorted_insertionSort _ _
      have hperm : (List.insertionSort (· ≤ ·) ns.dedup).Perm ns.dedup :=
        List.perm_insertionSort _ _
      have hnodup : (List.insertionSort (· ≤ ·) ns.dedup).Nodup :=
        hperm.nodup_iff.mpr (List.nodup_dedup ns)
      constructor
      · exact (hsorted.and hnodup).imp fun h => lt_of_le_of_ne h.1 h.2
      · intro x hx
        have hx1 : x ∈ ns.dedup := hperm.mem_iff.mp hx
        have hx2 : x ∈ ns := List.mem_dedup.mp hx1
        exact checkTokens_le31 hck x hx2

theorem parse_no_digit (s : List Char) (h : ∀ c ∈ s, c.isDigit = false) :
    parseStepList s = ([], none) := by
  unfold parseStepList
  by_cases hw : s.all Char.isWhitespace
  · rw [if_pos hw]
  · rw [if_neg hw]
    have hdr : digitRuns s = [] := digitRunsAux_nil_of_no_digit s h
    rw [hdr]
    rfl

/- ------------------------------ C10 ------------------------------ -/

/-- C10: for every input, `parseStepList` returns either an error with an
empty step list, or (unconditionally, in fact) a step list that is strictly
increasing — hence duplicate-free — with every element in `[0, 31]`
(elements are naturals, so the lower bound is inherent); an input containing
no digit characters (including empty or whitespace-only input) yields an
empty step list and no error. -/
theorem claim_C10 :
    ∀ s : List Char,
      (((parseStepList s).2).isSome = true → (parseStepList s).1 = []) ∧
      ((parseStepList s).1.Pairwise (· < ·) ∧ ∀ x ∈ (parseStepList s).1, x ≤ 31) ∧
      ((∀ c ∈ s, c.isDigit = false) → parseStepList s = ([], none)) :=
  fun s => ⟨parse_error_steps_nil s, parse_ok_props s, parse_no_digit s⟩

/-- Witness: the token `32` produces an out-of-range error with an empty step
list, and an input with no digits parses to no steps and no error. -/
theorem claim_C10_witness :
    ((parseStepList ['3', '2']).2).isSome = true ∧
      (parseStepList ['3', '2']).1 = [] ∧
      ((5 : ℕ) ∈ (parseStepList ['5']).1 ∧ (5 : ℕ) ≤ 31) ∧
      parseStepList [' ', 'x', '!'] = ([], none) :=
  ⟨by decide, (claim_C10 ['3', '2']).1 (by decide),
   ⟨by decide, (claim_C10 ['5']).2.1.2 5 (by decide)⟩,
   (claim_C10 [' ', 'x', '!']).2.2 (by decide)⟩

/- ------------------------------ C7 helpers ------------------------------ -/

theorem mbf_voices (r : ℚ) (st : ℤ) (s : Main.AppState) :
    (Main.maybeBeginFade r st s).voices = s.voices := by
  unfold Main.maybeBeginFade
  split <;> rfl

theorem mbf_pointers (r : ℚ) (st : ℤ) (s : Main.AppState) :
    (Main.maybeBeginFade r st s).activePointers = s.activePointers := by
  unfold Main.maybeBeginFade
  split <;> rfl

theorem mbf_activeVoices (r : ℚ) (st : ℤ) (s : Main.AppState) :
    (Main.maybeBeginFade r st s).activeVoices = s.activeVoices := by
  unfold Main.maybeBeginFade
  split <;> rfl

theorem mbf_activeKeys (r : ℚ) (st : ℤ) (s : Main.AppState) :
    (Main.maybeBeginFade r st s).activeKeys = s.activeKeys := by
  unfold Main.maybeBeginFade
  split <;> rfl

theorem mbf_latched (r : ℚ) (st : ℤ) (s : Main.AppState) :
    (Main.maybeBeginFade r st s).latchedVoices = s.latchedVoices := by
  unfold Main.maybeBeginFade
  split <;> rfl

theorem mbf_counts (r : ℚ) (st : ℤ) (s : Main.AppState) :
    (Main.maybeBeginFade r st s).glow.counts = s.glow.counts := by
  unfold Main.maybeBeginFade
  split <;> rfl

theorem dec_voices (st : ℤ) (s : Main.AppState) :
    (Main.decGlow st s).voices = s.voices := by
  unfold Main.decGlow
  split <;> rfl

theorem dec_pointers (st : ℤ) (s : Main.AppState) :
    (Main.decGlow st s).activePointers = s.activePointers := by
  unfold Main.decGlow
  split <;> rfl

theorem dec_activeVoices (st : ℤ) (s : Main.AppState) :
    (Main.decGlow st s).activeVoices = s.activeVoices := by
  unfold Main.decGlow
  split <;> rfl

theorem dec_activeKeys (st : ℤ) (s : Main.AppState) :
    (Main.decGlow st s).activeKeys = s.activeKeys := by
  unfold Main.decGlow
  split <;> rfl

theorem dec_latched (st : ℤ) (s : Main.AppState) :
    (Main.decGlow st s).latchedVoices = s.latchedVoices := by
  unfold Main.decGlow
  split <;> rfl

theorem toggle_flip (P : Params) (step : ℤ) (s : Main.AppState) :
    (mapGet step (Main.toggleLatched P step s).latchedVoices).isSome =
      !(mapGet step s.latchedVoices).isSome := by
  unfold Main.toggleLatched
  cases h : mapGet step s.latchedVoices with
  | some vid =>
    simp only [h, Option.isSome_some, Bool.not_true]
    split <;> (dsimp only; rw [mbf_latched, mapGet_del_self]; rfl)
  | none =>
    simp only [h, Option.isSome_none, Bool.not_false, Main.incGlow]
    rw [mapGet_set_self]
    rfl

/- ------------------------------ C7 ------------------------------ -/

/-- C7: with sustain on, each latch activation flips the step's latched state
exactly — the latched registry's membership for the step is negated by every
call (so two consecutive activations restore it, alternating start/stop and
never double-starting); when no voice is latched, exactly one new Voice is
constructed and registered for the step; when one is latched, no voice is
constructed and that voice receives its terminal stop and is removed. -/
theorem claim_C7 :
    ∀ (P : Params) (step : ℤ) (s : Main.AppState),
      ((mapGet step (Main.toggleLatched P step s).latchedVoices).isSome =
        !(mapGet step s.latchedVoices).isSome) ∧
      ((mapGet step
          (Main.toggleLatched P step (Main.toggleLatched P step s)).latchedVoices).isSome =
        (mapGet step s.latchedVoices).isSome) ∧
      (match mapGet step s.latchedVoices with
       | none =>
         (Main.toggleLatched P step s).voices.length = s.voices.length + 1 ∧
         mapGet step (Main.toggleLatched P step s).latchedVoices = some s.voices.length
       | some vid =>
         (Main.toggleLatched P step s).voices.length = s.voices.length ∧
         mapGet step (Main.toggleLatched P step s).latchedVoices = none ∧
         (Main.toggleLatched P step s).voices[vid]? =
           (s.voices[vid]?).map (Main.Voice.stop (some step))) := by
  intro P step s
  refine ⟨toggle_flip P step s, ?_, ?_⟩
  · rw [toggle_flip, toggle_flip, Bool.not_not]
  · cases h : mapGet step s.latchedVoices with
    | none =>
      constructor
      · unfold Main.toggleLatched
        simp only [h, Main.incGlow]
        rw [List.length_append]
        rfl
      · unfold Main.toggleLatched
        simp only [h, Main.incGlow]
        rw [mapGet_set_self]
    | some vid =>
      refine ⟨?_, ?_, ?_⟩
      · unfold Main.toggleLatched
        simp only [h]
        split <;> (dsimp only; rw [length_modifyAt, mbf_voices])
      · unfold Main.toggleLatched
        simp only [h]
        split <;> (dsimp only; rw [mbf_latched, mapGet_del_self])
      · unfold Main.toggleLatched
        simp only [h]
        split <;> (dsimp only; rw [getElem?_modifyAt, if_pos rfl, mbf_voices])

/- ------------------------------ C6 helpers ------------------------------ -/

theorem inc_voices (st : ℤ) (s : Main.AppState) :
    (Main.incGlow st s).voices = s.voices := rfl

theorem inc_pointers (st : ℤ) (s : Main.AppState) :
    (Main.incGlow st s).activePointers = s.activePointers := rfl

theorem inc_activeVoices (st : ℤ) (s : Main.AppState) :
    (Main.incGlow st s).activeVoices = s.activeVoices := rfl

theorem inc_activeKeys (st : ℤ) (s : Main.AppState) :
    (Main.incGlow st s).activeKeys = s.activeKeys := rfl

theorem inc_latched (st : ℤ) (s : Main.AppState) :
    (Main.incGlow st s).latchedVoices = s.latchedVoices := rfl

theorem inc_count_get (st : ℤ) (s : Main.AppState) :
    mapGet st (Main.incGlow st s).glow.counts =
      some ((mapGet st s.glow.counts).getD 0 + 1) :=
  mapGet_set_self _ _ _

theorem inc_count_get_ne {q st : ℤ} (h : q ≠ st) (s : Main.AppState) :
    mapGet q (Main.incGlow st s).glow.counts = mapGet q s.glow.counts :=
  mapGet_set_ne h _ _

theorem inc_fades_self (st : ℤ) (s : Main.AppState) :
    mapGet st (Main.incGlow st s).glow.fades = none :=
  mapGet_del_self _ _

theorem dec_count_get (st : ℤ) (s : Main.AppState) :
    (mapGet st (Main.decGlow st s).glow.counts).getD 0 =
      max ((mapGet st s.glow.counts).getD 0 - 1) 0 := by
  unfold Main.decGlow
  split_ifs with hc
  · dsimp only
    rw [mapGet_del_self, max_eq_right hc]
    rfl
  · dsimp only
    rw [mapGet_set_self, max_eq_left (by omega)]
    rfl

theorem dec_count_get_ne {q st : ℤ} (h : q ≠ st) (s : Main.AppState) :
    mapGet q (Main.decGlow st s).glow.counts = mapGet q s.glow.counts := by
  unfold Main.decGlow
  split_ifs
  · dsimp only
    exact mapGet_del_ne h _
  · dsimp only
    exact mapGet_set_ne h _ _

theorem getD_nonneg_of_good {s : Main.AppState} (h : Main.goodCounts s) (st : ℤ) :
    0 ≤ (mapGet st s.glow.counts).getD 0 := by
  cases hm : mapGet st s.glow.counts with
  | none => simp
  | some v =>
    have hv := h _ (mapGet_mem hm)
    simp only [Option.getD_some]
    exact hv.le

theorem goodCounts_op (P : Params) (s : Main.AppState) (op : Main.GlowOp)
    (h : Main.goodCounts s) : Main.goodCounts (Main.applyGlowOp P s op) := by
  cases op with
  | inc st =>
    intro kv hkv
    have hkv' : kv ∈ mapSet st ((mapGet st s.glow.counts).getD 0 + 1) s.glow.counts := hkv
    rcases mem_mapSet hkv' with h1 | h1
    · have hge := getD_nonneg_of_good h st
      rw [h1]
      dsimp only
      omega
    · exact h kv h1
  | beginFade st =>
    intro kv hkv
    apply h
    have hc : (Main.maybeBeginFade P.release st s).glow.counts = s.glow.counts :=
      mbf_counts _ _ _
    have hkv' : kv ∈ (Main.maybeBeginFade P.release st s).glow.counts := hkv
    rwa [hc] at hkv'
  | dec st =>
    intro kv hkv
    have hkv' : kv ∈ (Main.decGlow st s).glow.counts := hkv
    unfold Main.decGlow at hkv'
    split_ifs at hkv' with hc
    · exact h kv (mem_mapDel hkv')
    · rcases mem_mapSet hkv' with h1 | h1
      · rw [h1]
        dsimp only
        omega
      · exact h kv h1

theorem goodCounts_ops (P : Params) (ops : List Main.GlowOp) :
    ∀ s : Main.AppState, Main.goodCounts s → Main.goodCounts (Main.applyGlowOps P ops s) := by
  induction ops with
  | nil => intro s h; exact h
  | cons op ops ih =>
    intro s h
    exact ih _ (goodCounts_op P s op h)

theorem mbf_fades_eq (P : Params) (st : ℤ) (s : Main.AppState) :
    mapGet st (Main.maybeBeginFade P.release st s).glow.fades =
      if (mapGet st s.glow.counts).getD 0 ≤ 1
      then some ⟨s.glow.now, visualReleaseMs P.release⟩
      else mapGet st s.glow.fades := by
  unfold Main.maybeBeginFade
  split_ifs with hc
  · dsimp only
    exact mapGet_set_self _ _ _
  · rfl

theorem dec_zero_clears (st : ℤ) (s : Main.AppState)
    (h : (mapGet st s.glow.counts).getD 0 - 1 ≤ 0) :
    mapGet st (Main.decGlow st s).glow.counts = none ∧
      mapGet st (Main.decGlow st s).glow.fades = none := by
  unfold Main.decGlow
  rw [if_pos h]
  exact ⟨mapGet_del_self _ _, mapGet_del_self _ _⟩

/- ------------------------------ C6: part_000 helpers ------------------------------ -/

theorem alt_getD_nonneg_of_good {s : Alt.AppState} (h : Alt.goodCounts s) (st : ℤ) :
    0 ≤ (mapGet st s.glowCounts).getD 0 := by
  cases hm : mapGet st s.glowCounts with
  | none => simp
  | some v =>
    have hv := h _ (mapGet_mem hm)
    simp only [Option.getD_some]
    exact hv.le

theorem alt_goodCounts_op (P : Params) (s : Alt.AppState) (op : Main.GlowOp)
    (h : Alt.goodCounts s) : Alt.goodCounts (Alt.applyGlowOp P s op) := by
  cases op with
  | inc st =>
    intro kv hkv
    have hkv' : kv ∈ mapSet st ((mapGet st s.glowCounts).getD 0 + 1) s.glowCounts := hkv
    rcases mem_mapSet hkv' with h1 | h1
    · have hge := alt_getD_nonneg_of_good h st
      rw [h1]
      dsimp only
      omega
    · exact h kv h1
  | beginFade st =>
    intro kv hkv
    exact h kv hkv
  | dec st =>
    intro kv hkv
    have hkv' : kv ∈ (Alt.decGlow st s).glowCounts := hkv
    unfold Alt.decGlow at hkv'
    split_ifs at hkv' with hc
    · exact h kv (mem_mapDel hkv')
    · rcases mem_mapSet hkv' with h1 | h1
      · rw [h1]
        dsimp only
        omega
      · exact h kv h1

theorem alt_goodCounts_ops (P : Params) (ops : List Main.GlowOp) :
    ∀ s : Alt.AppState, Alt.goodCounts s → Alt.goodCounts (Alt.applyGlowOps P ops s) := by
  induction ops with
  | nil => intro s h; exact h
  | cons op ops ih =>
    intro s h
    exact ih _ (alt_goodCounts_op P s op h)

theorem alt_inc_fades (st : ℤ) (s : Alt.AppState) :
    (Alt.incGlow st s).fadeInfo = s.fadeInfo := rfl

theorem alt_inc_count_get (st : ℤ) (s : Alt.AppState) :
    mapGet st (Alt.incGlow st s).glowCounts =
      some ((mapGet st s.glowCounts).getD 0 + 1) :=
  mapGet_set_self _ _ _

theorem alt_dec_fades (st : ℤ) (s : Alt.AppState) :
    (Alt.decGlow st s).fadeInfo = s.fadeInfo := by
  unfold Alt.decGlow
  split_ifs <;> rfl

theorem alt_mbf_fades (P : Params) (st : ℤ) (s : Alt.AppState) :
    mapGet st (Alt.maybeBeginFade P.release st s).fadeInfo =
      some ⟨s.now, visualReleaseMs P.release⟩ :=
  mapGet_set_self _ _ _

/- ------------------------------ C6 ------------------------------ -/

/-- C6 (amended, per file): in both files, across every sequence of
increment / decrement / begin-fade operations every stored liveness count
stays positive, so a step's count (read as `get(step) || 0`) is never
negative.  In `src/src/FiftyThreeTETKeyboard.tsx` an increment immediately
clears any pending fade record and bumps the count, and a decrement that
reaches (or would pass) zero deletes both the count and the fade record; in
`src/unnamed/part_000` the increment bumps the count but never touches
`fadeInfo`, the decrement also never touches `fadeInfo` (fade records there
are removed only by the timer scheduled in `maybeBeginFade`), and
`maybeBeginFade` records the fade unconditionally.  In neither file is a
fade record mutually exclusive with a positive count: the main file's
`maybeBeginFade` creates the fade at stop-call time whenever the count is
still ≤ 1 — i.e. typically while the count is 1, before the deferred
`decGlow` runs — and part_000's creates it unconditionally; see the
counterexample to the claim as stated. -/
theorem claim_C6 :
    (∀ (P : Params) (ops : List Main.GlowOp) (s : Main.AppState),
        Main.goodCounts s → Main.goodCounts (Main.applyGlowOps P ops s)) ∧
    (∀ s : Main.AppState, Main.goodCounts s →
        ∀ st : ℤ, 0 ≤ (mapGet st s.glow.counts).getD 0) ∧
    (∀ (st : ℤ) (s : Main.AppState),
        mapGet st (Main.incGlow st s).glow.fades = none ∧
        mapGet st (Main.incGlow st s).glow.counts =
          some ((mapGet st s.glow.counts).getD 0 + 1)) ∧
    (∀ (P : Params) (st : ℤ) (s : Main.AppState),
        mapGet st (Main.maybeBeginFade P.release st s).glow.fades =
          if (mapGet st s.glow.counts).getD 0 ≤ 1
          then some ⟨s.glow.now, visualReleaseMs P.release⟩
          else mapGet st s.glow.fades) ∧
    (∀ (st : ℤ) (s : Main.AppState),
        (mapGet st s.glow.counts).getD 0 - 1 ≤ 0 →
          mapGet st (Main.decGlow st s).glow.counts = none ∧
          mapGet st (Main.decGlow st s).glow.fades = none) ∧
    (∀ (P : Params) (ops : List Main.GlowOp) (s : Alt.AppState),
        Alt.goodCounts s → Alt.goodCounts (Alt.applyGlowOps P ops s)) ∧
    (∀ s : Alt.AppState, Alt.goodCounts s →
        ∀ st : ℤ, 0 ≤ (mapGet st s.glowCounts).getD 0) ∧
    (∀ (st : ℤ) (s : Alt.AppState),
        (Alt.incGlow st s).fadeInfo = s.fadeInfo ∧
        mapGet st (Alt.incGlow st s).glowCounts =
          some ((mapGet st s.glowCounts).getD 0 + 1)) ∧
    (∀ (st : ℤ) (s : Alt.AppState), (Alt.decGlow st s).fadeInfo = s.fadeInfo) ∧
    (∀ (P : Params) (st : ℤ) (s : Alt.AppState),
        mapGet st (Alt.maybeBeginFade P.release st s).fadeInfo =
          some ⟨s.now, visualReleaseMs P.release⟩) :=
  ⟨fun P ops s h => goodCounts_ops P ops s h,
   fun _ h st => getD_nonneg_of_good h st,
   fun st s => ⟨inc_fades_self st s, inc_count_get st s⟩,
   mbf_fades_eq,
   dec_zero_clears,
   fun P ops s h => alt_goodCounts_ops P ops s h,
   fun _ h st => alt_getD_nonneg_of_good h st,
   fun st s => ⟨alt_inc_fades st s, alt_inc_count_get st s⟩,
   alt_dec_fades,
   alt_mbf_fades⟩

/-- Witness: the hypotheses are discharged on concrete runs in both
embeddings — the empty states have positive stored counts, a press/settle
sequence preserves that, the read count of an untouched step is non-negative,
and (main file) a decrement from zero clears both records. -/
theorem claim_C6_witness :
    Main.goodCounts Main.AppState.empty ∧
    Main.goodCounts (Main.applyGlowOps P0
      [Main.GlowOp.inc 3, Main.GlowOp.dec 3] Main.AppState.empty) ∧
    (0 : ℤ) ≤ (mapGet 5 Main.AppState.empty.glow.counts).getD 0 ∧
    (mapGet 2 (Main.decGlow 2 Main.AppState.empty).glow.counts = none ∧
      mapGet 2 (Main.decGlow 2 Main.AppState.empty).glow.fades = none) ∧
    Alt.goodCounts Alt.AppState.empty ∧
    Alt.goodCounts (Alt.applyGlowOps P0
      [Main.GlowOp.inc 3, Main.GlowOp.dec 3] Alt.AppState.empty) ∧
    (0 : ℤ) ≤ (mapGet 5 Alt.AppState.empty.glowCounts).getD 0 :=
  ⟨by decide,
   claim_C6.1 P0 [Main.GlowOp.inc 3, Main.GlowOp.dec 3] Main.AppState.empty (by decide),
   claim_C6.2.1 Main.AppState.empty (by decide) 5,
   claim_C6.2.2.2.2.1 2 Main.AppState.empty (by decide),
   by decide,
   claim_C6.2.2.2.2.2.1 P0 [Main.GlowOp.inc 3, Main.GlowOp.dec 3] Alt.AppState.empty
     (by decide),
   claim_C6.2.2.2.2.2.2.1 Alt.AppState.empty (by decide) 5⟩

/-- Counterexample to C6 as stated: in the main file, after a press on step 7
followed by the stop-time `maybeBeginFade` (count still 1), a fade record
exists while the step's count is positive — fades are not mutually exclusive
with `count > 0`.  And in part_000, an increment arriving while a fade is
pending does NOT clear the fade record. -/
theorem claim_C6_counterexample :
    (mapGet 7 (Main.applyGlowOps P0
        [Main.GlowOp.inc 7, Main.GlowOp.beginFade 7]
        Main.AppState.empty).glow.fades).isSome = true ∧
    (mapGet 7 (Main.applyGlowOps P0
        [Main.GlowOp.inc 7, Main.GlowOp.beginFade 7]
        Main.AppState.empty).glow.counts).getD 0 ≠ 0 ∧
    (mapGet 7 (Alt.incGlow 7
        (Alt.maybeBeginFade P0.release 7 Alt.AppState.empty)).fadeInfo).isSome = true :=
  ⟨by decide, by decide, by decide⟩

/- ------------------------------ C5 ------------------------------ -/

/-- C5 (amended, holds in full for the main file's `retuneForPointer`): with
no registered voice for the pointer, retune is a no-op; with a registered
entry at a different old step, retune keeps the heap size (no Voice
constructed), re-registers the same voice id at the new step, applies exactly
one `setFrequency` to that same voice, decrements the old step's liveness
count (clamped at zero, matching `decGlow`'s delete-at-zero) and increments
the new step's.  The part_000 variant fails to decrement the old step: see
the counterexample. -/
theorem claim_C5 :
    ∀ (P : Params) (pid : ℕ) (q : ℤ) (s : Main.AppState),
      (mapGet pid s.activeVoices = none → Main.retuneForPointer P pid q s = s) ∧
      (∀ e : Entry, mapGet pid s.activeVoices = some e → e.step ≠ q →
        ((Main.retuneForPointer P pid q s).voices.length = s.voices.length ∧
         mapGet pid (Main.retuneForPointer P pid q s).activeVoices = some ⟨e.voice, q⟩ ∧
         (Main.retuneForPointer P pid q s).voices[e.voice]? =
           (s.voices[e.voice]?).map (Main.Voice.setFrequency (P.pitch q)) ∧
         (mapGet e.step (Main.retuneForPointer P pid q s).glow.counts).getD 0 =
           max ((mapGet e.step s.glow.counts).getD 0 - 1) 0 ∧
         (mapGet q (Main.retuneForPointer P pid q s).glow.counts).getD 0 =
           (mapGet q s.glow.counts).getD 0 + 1)) := by
  intro P pid q s
  constructor
  · intro h
    unfold Main.retuneForPointer
    simp only [h]
  · intro e he hne
    unfold Main.retuneForPointer
    simp only [he]
    rw [if_pos hne]
    refine ⟨?_, ?_, ?_, ?_, ?_⟩
    · dsimp only
      rw [length_modifyAt, inc_voices, dec_voices]
    · dsimp only
      rw [mapGet_set_self]
    · dsimp only
      rw [getElem?_modifyAt, if_pos rfl, inc_voices, dec_voices]
    · dsimp only
      rw [inc_count_get_ne hne, dec_count_get]
    · dsimp only
      rw [inc_count_get, dec_count_get_ne (Ne.symm hne)]
      rfl

/-- Witness: retune with no registered pointer is a no-op, and for pointer 1
holding step 10, retuning to step 15 keeps the single voice, re-registers
voice id 0 at step 15, retunes that voice once, zeroes step 10's count and
makes step 15's count 1. -/
theorem claim_C5_witness :
    mapGet 9 Main.AppState.empty.activeVoices = none ∧
    Main.retuneForPointer P0 9 4 Main.AppState.empty = Main.AppState.empty ∧
    mapGet 1 sPtr1.activeVoices = some ⟨0, 10⟩ ∧
    ((10 : ℤ) ≠ 15) ∧
    ((Main.retuneForPointer P0 1 15 sPtr1).voices.length = sPtr1.voices.length ∧
     mapGet 1 (Main.retuneForPointer P0 1 15 sPtr1).activeVoices = some ⟨0, 15⟩ ∧
     (Main.retuneForPointer P0 1 15 sPtr1).voices[0]? =
       (sPtr1.voices[0]?).map (Main.Voice.setFrequency (P0.pitch 15)) ∧
     (mapGet 10 (Main.retuneForPointer P0 1 15 sPtr1).glow.counts).getD 0 =
       max ((mapGet 10 sPtr1.glow.counts).getD 0 - 1) 0 ∧
     (mapGet 15 (Main.retuneForPointer P0 1 15 sPtr1).glow.counts).getD 0 =
       (mapGet 15 sPtr1.glow.counts).getD 0 + 1) :=
  ⟨by decide,
   (claim_C5 P0 9 4 Main.AppState.empty).1 (by decide),
   by decide,
   by decide,
   (claim_C5 P0 1 15 sPtr1).2 ⟨0, 10⟩ (by decide) (by decide)⟩

/-- Counterexample to C5 as stated: in the part_000 variant, after pointer 1
starts step 10 and drags to step 15, the OLD step's liveness count is still 1
(never decremented), even though the voice was retuned in place and the new
step was incremented. -/
theorem claim_C5_counterexample :
    (mapGet 10 (Alt.retuneForPointer P0 1 15 altPtr1).glowCounts).getD 0 ≠ 0 ∧
    mapGet 1 (Alt.retuneForPointer P0 1 15 altPtr1).activeVoices = some ⟨0, 15⟩ ∧
    (mapGet 15 (Alt.retuneForPointer P0 1 15 altPtr1).glowCounts).getD 0 = 1 :=
  ⟨by decide, by decide, by decide⟩

/- ------------------------------ C3 helpers ------------------------------ -/

theorem retuneFold_aux (P : Params) :
    ∀ (l : List (ℕ × Entry)) (s : Main.AppState),
      ((l.foldl (fun acc pe =>
          { acc with
              voices := modifyAt (Main.Voice.setFrequency (P.pitch pe.2.step)) pe.2.voice acc.voices,
              activeHz := some (P.pitch pe.2.step), activeStep := some pe.2.step }) s).voices =
        Main.setFreqFold P l s.voices) ∧
      ((l.foldl (fun acc pe =>
          { acc with
              voices := modifyAt (Main.Voice.setFrequency (P.pitch pe.2.step)) pe.2.voice acc.voices,
              activeHz := some (P.pitch pe.2.step), activeStep := some pe.2.step }) s).activePointers =
        s.activePointers) ∧
      ((l.foldl (fun acc pe =>
          { acc with
              voices := modifyAt (Main.Voice.setFrequency (P.pitch pe.2.step)) pe.2.voice acc.voices,
              activeHz := some (P.pitch pe.2.step), activeStep := some pe.2.step }) s).activeVoices =
        s.activeVoices) ∧
      ((l.foldl (fun acc pe =>
          { acc with
              voices := modifyAt (Main.Voice.setFrequency (P.pitch pe.2.step)) pe.2.voice acc.voices,
              activeHz := some (P.pitch pe.2.step), activeStep := some pe.2.step }) s).activeKeys =
        s.activeKeys) ∧
      ((l.foldl (fun acc pe =>
          { acc with
              voices := modifyAt (Main.Voice.setFrequency (P.pitch pe.2.step)) pe.2.voice acc.voices,
              activeHz := some (P.pitch pe.2.step), activeStep := some pe.2.step }) s).latchedVoices =
        s.latchedVoices) ∧
      ((l.foldl (fun acc pe =>
          { acc with
              voices := modifyAt (Main.Voice.setFrequency (P.pitch pe.2.step)) pe.2.voice acc.voices,
              activeHz := some (P.pitch pe.2.step), activeStep := some pe.2.step }) s).glow =
        s.glow) := by
  intro l
  induction l with
  | nil => intro s; exact ⟨rfl, rfl, rfl, rfl, rfl, rfl⟩
  | cons pe l ih =>
    intro s
    refine ⟨(ih _).1, (ih _).2.1, (ih _).2.2.1, (ih _).2.2.2.1, (ih _).2.2.2.2.1,
      (ih _).2.2.2.2.2⟩

theorem setFreqFold_length (P : Params) :
    ∀ (l : List (ℕ × Entry)) (vs : List Main.Voice),
      (Main.setFreqFold P l vs).length = vs.length := by
  intro l
  induction l with
  | nil => intro vs; rfl
  | cons pe l ih =>
    intro vs
    have hstep : Main.setFreqFold P (pe :: l) vs =
        Main.setFreqFold P l
          (modifyAt (Main.Voice.setFrequency (P.pitch pe.2.step)) pe.2.voice vs) := rfl
    rw [hstep, ih, length_modifyAt]

theorem setFreqFold_get (P : Params) :
    ∀ (l : List (ℕ × Entry)) (vs : List Main.Voice) (i : ℕ),
      (Main.setFreqFold P l vs)[i]? =
        (vs[i]?).map (Main.setFreqSeq P (Main.retuneSteps i l)) := by
  intro l
  induction l with
  | nil =>
    intro vs i
    show vs[i]? = (vs[i]?).map (Main.setFreqSeq P (Main.retuneSteps i []))
    cases vs[i]? <;> rfl
  | cons pe l ih =>
    intro vs i
    have hstep : Main.setFreqFold P (pe :: l) vs =
        Main.setFreqFold P l
          (modifyAt (Main.Voice.setFrequency (P.pitch pe.2.step)) pe.2.voice vs) := rfl
    rw [hstep, ih, getElem?_modifyAt]
    by_cases h : i = pe.2.voice
    · rw [if_pos h, Option.map_map]
      congr 1
      funext v
      simp [Main.retuneSteps, Main.setFreqSeq, List.filter_cons, h]
    · rw [if_neg h]
      have hne : (pe.2.voice == i) = false := beq_eq_false_iff_ne.mpr fun hh => h hh.symm
      simp [Main.retuneSteps, List.filter_cons, hne]

theorem setFreqSeq_fields (P : Params) (steps : List ℤ) :
    ∀ v : Main.Voice,
      (Main.setFreqSeq P steps v).stopped = v.stopped ∧
      (Main.setFreqSeq P steps v).termStops = v.termStops ∧
      (Main.setFreqSeq P steps v).attacksScheduled = v.attacksScheduled := by
  induction steps with
  | nil => intro v; exact ⟨rfl, rfl, rfl⟩
  | cons st steps ih =>
    intro v
    have h := ih (Main.Voice.setFrequency (P.pitch st) v)
    exact ⟨h.1, h.2.1, h.2.2⟩

/- ------------------------------ C3 ------------------------------ -/

/-- C3 (amended): the base-change effect retunes ONLY the pointer-held voices
(`activeVoices`), in place and via `setFrequency` only — the heap keeps its
size (no Voice constructed), every registry map and the liveness state are
untouched, each heap slot becomes exactly its old voice with one
`setFrequency` per referencing pointer entry applied (so slots not referenced
by a pointer entry — all key-held and latched voices — are completely
untouched), and no voice has its stopped flag, terminal-stop count or
attack-ramp count changed.  The claim's assertion that key-held and latched
voices are retuned too is refuted by the counterexample. -/
theorem claim_C3 :
    ∀ (P : Params) (s : Main.AppState),
      (Main.retuneHeldOnBaseChange P s).voices.length = s.voices.length ∧
      (Main.retuneHeldOnBaseChange P s).activePointers = s.activePointers ∧
      (Main.retuneHeldOnBaseChange P s).activeVoices = s.activeVoices ∧
      (Main.retuneHeldOnBaseChange P s).activeKeys = s.activeKeys ∧
      (Main.retuneHeldOnBaseChange P s).latchedVoices = s.latchedVoices ∧
      (Main.retuneHeldOnBaseChange P s).glow = s.glow ∧
      (∀ i : ℕ, (Main.retuneHeldOnBaseChange P s).voices[i]? =
        (s.voices[i]?).map (Main.setFreqSeq P (Main.retuneSteps i s.activeVoices))) ∧
      (∀ i : ℕ,
        ((Main.retuneHeldOnBaseChange P s).voices[i]?).map Main.Voice.stopped =
          (s.voices[i]?).map Main.Voice.stopped) ∧
      (∀ i : ℕ,
        ((Main.retuneHeldOnBaseChange P s).voices[i]?).map Main.Voice.termStops =
          (s.voices[i]?).map Main.Voice.termStops) ∧
      (∀ i : ℕ,
        ((Main.retuneHeldOnBaseChange P s).voices[i]?).map Main.Voice.attacksScheduled =
          (s.voices[i]?).map Main.Voice.attacksScheduled) := by
  intro P s
  have haux := retuneFold_aux P s.activeVoices s
  have hv : (Main.retuneHeldOnBaseChange P s).voices =
      Main.setFreqFold P s.activeVoices s.voices := haux.1
  have hget : ∀ i : ℕ, (Main.retuneHeldOnBaseChange P s).voices[i]? =
      (s.voices[i]?).map (Main.setFreqSeq P (Main.retuneSteps i s.activeVoices)) := by
    intro i
    rw [hv]
    exact setFreqFold_get P s.activeVoices s.voices i
  refine ⟨?_, haux.2.1, haux.2.2.1, haux.2.2.2.1, haux.2.2.2.2.1, haux.2.2.2.2.2,
    hget, ?_, ?_, ?_⟩
  · rw [hv]
    exact setFreqFold_length P s.activeVoices s.voices
  · intro i
    rw [hget i]
    cases hvi : s.voices[i]? with
    | none => rfl
    | some v =>
      simp only [Option.map_some']
      exact congrArg some (setFreqSeq_fields P _ v).1
  · intro i
    rw [hget i]
    cases hvi : s.voices[i]? with
    | none => rfl
    | some v =>
      simp only [Option.map_some']
      exact congrArg some (setFreqSeq_fields P _ v).2.1
  · intro i
    rw [hget i]
    cases hvi : s.voices[i]? with
    | none => rfl
    | some v =>
      simp only [Option.map_some']
      exact congrArg some (setFreqSeq_fields P _ v).2.2

/-- Counterexample to C3 as stated: after the base transposes from 0 to 7
semitones, the latched voice at step 5 and the key-held voice at step 5
received NO `setFrequency` call and still sound the pitch derived from the
old base — the effect iterates `activeVoices` (pointer-held) only. -/
theorem claim_C3_counterexample :
    ((Main.retuneHeldOnBaseChange P1 sLatch5).voices[0]?).map Main.Voice.setFreqCalls ≠
        some 1 ∧
    ((Main.retuneHeldOnBaseChange P1 sLatch5).voices[0]?).map Main.Voice.freq ≠
        some (P1.pitch 5) ∧
    ((Main.retuneHeldOnBaseChange P1 sKeyA).voices[0]?).map Main.Voice.setFreqCalls ≠
        some 1 ∧
    ((Main.retuneHeldOnBaseChange P1 sKeyA).voices[0]?).map Main.Voice.freq ≠
        some (P1.pitch 5) :=
  ⟨by decide, by decide, by decide, by decide⟩

/-- Witness for the amended C8: the final sample 1/2 of a concrete curve is a
member, and the positivity postcondition holds at it. -/
theorem claim_C8_witness :
    (1 / 2 : ℝ) ∈ buildSmoothDecayCurve 1 (1 / 2) 2 ∧ (0 : ℝ) < 1 / 2 := by
  have hl : (buildSmoothDecayCurve 1 (1 / 2) 2).getLast? = some (1 / 2 : ℝ) := by
    rw [buildCurve_getLast, max_eq_left (by norm_num : (1 / 1000000 : ℝ) ≤ 1 / 2)]
  rw [List.getLast?_eq_getElem?] at hl
  obtain ⟨hlt, he⟩ := List.getElem?_eq_some_iff.mp hl
  have hmem := List.getElem_mem hlt
  rw [he] at hmem
  exact ⟨hmem, (claim_C8 1 (1 / 2) 2).2.2.2.2 (1 / 2) hmem⟩
